import Mathlib

/-!
Verification of the nnsight remote-execution client core: the batch
planner (`Tracer.batch`), the job state machine and duplex receive loop
(`RemoteBackend.handle_response`, `blocking_request`), the chunked result
download (`get_result`), the non-blocking poll path
(`non_blocking_request`), and graph preprocessing for serialization
(`preprocess`).  Each definition is a shallow embedding of the
corresponding Python function from `src/nnsight`.
-/

namespace NNsight

/-! ## Batch planner (`Tracer.batch`, intervention/contexts/tracer.py) -/

/-- The merged physical input produced by `Tracer.batch`.  `prepared a`
is the accumulated result of the model's `_batch` combine step; the
fallback `implicitGroup 0 (-1)` embeds the literal Python value
`(((0, -1),), dict())` that `batch` substitutes when no invocation
contributed any input (the pair `(0, -1)` denotes a slice spanning the
whole default input). -/
inductive BatchedInput (α : Type) where
  | prepared (a : α)
  | implicitGroup (startOffset : Int) (length : Int)
deriving DecidableEq

/-- The `for args, kwargs in invoker_inputs` loop body of `Tracer.batch`:
threads the accumulated `batched_input` (initially `None`), the running
`batch_start` offset, and the `batch_groups` list.  `prepare` embeds
`self.model._prepare_input` (returning the prepared input and its batch
size) and `combine` embeds `self.model._batch`. -/
def batchLoop {α β γ : Type} (prepare : γ → β × Nat) (combine : Option α → β → α) :
    List γ → Option α → Nat → List (Nat × Nat) → Option α × List (Nat × Nat)
  | [], batched, _start, groups => (batched, groups)
  | x :: rest, batched, start, groups =>
      let pr := prepare x
      batchLoop prepare combine rest (some (combine batched pr.1)) (start + pr.2)
        (groups ++ [(start, pr.2)])

namespace Tracer

/-- Embedding of `Tracer.batch`: runs the loop from an empty plan and, if
the accumulated input is still `None`, substitutes the implicit
whole-input group `(((0, -1),), dict())`. -/
def batch {α β γ : Type} (prepare : γ → β × Nat) (combine : Option α → β → α)
    (invoker_inputs : List γ) : BatchedInput α × List (Nat × Nat) :=
  let r := batchLoop prepare combine invoker_inputs none 0 []
  ((match r.1 with
    | none => BatchedInput.implicitGroup 0 (-1)
    | some a => BatchedInput.prepared a), r.2)

end Tracer

/-- Closed form of the group list built by `batchLoop`: one
`(startOffset, length)` pair per invocation, offsets accumulating from
`start`. -/
def groupsFrom (start : Nat) : List Nat → List (Nat × Nat)
  | [] => []
  | l :: ls => (start, l) :: groupsFrom (start + l) ls

/-! ## Data model: graphs, nodes, protocol messages -/

/-- A node's call target.  The embedding only needs to distinguish the
local-only coordination target `LocalContext` (pruned before remote
serialization) from every other target. -/
inductive Target where
  | localContext
  | op (name : String)
deriving DecidableEq

/-- A graph node: unique name, dense index, call target, optional cached
value, and the `meta_data['traceback']` string consulted on remote
errors. -/
structure Node (V : Type) where
  name : String
  index : Nat
  target : Target
  value : Option V
  traceback : String
deriving DecidableEq

/-- The caller's intervention graph: an ordered collection of nodes
addressable by position (`graph.nodes[i]`). -/
structure Graph (V : Type) where
  nodes : List (Node V)
deriving DecidableEq

/-- A decoded result payload: a mapping from node name to value. -/
abbrev ResultPayload (V : Type) := List (String × V)

/-- Job status values carried by `ResponseModel.status` and dispatched on
by `handle_response`. -/
inductive JobStatus where
  | queued
  | running
  | stream
  | completed
  | nnsightError
deriving DecidableEq

/-- The shape of `ResponseModel.data`, one variant per status: `null`
for a too-big completed result, an inline result mapping, a streamed
`(nodeIndex, dependencyValues)` pair, or an error descriptor
`(node_id, message)`. -/
inductive ResponseData (V : Type) where
  | null
  | result (r : ResultPayload V)
  | streamPayload (index : Nat) (deps : ResultPayload V)
  | errorPayload (node_id : Nat) (message : String)
deriving DecidableEq

/-- A decoded status message from the server. -/
structure Response (V : Type) where
  id : String
  status : JobStatus
  data : ResponseData V
deriving DecidableEq

/-- Failure modes surfaced by the client: the typed `NNsightError`
raised on a remote computation fault, a missing-header `KeyError`, a
dropped result stream, a malformed message (protocol fault), a non-200
HTTP reply, and dereferencing the absent graph argument. -/
inductive Err where
  | nnsight (message : String) (nodeIndex : Nat)
  | keyError (key : String)
  | connectionDropped
  | protocolFault
  | connection (detail : String)
  | attributeNone
deriving DecidableEq

/-- Observable side effects of the client, recorded in order: graph
serialization, request submission, status polling, out-of-band result
download, traceback printing, dependency injection, local node
execution, and persisting the job id to configuration. -/
inductive Action (V : Type) where
  | serialize
  | submit
  | poll (jobId : String)
  | download (id : String)
  | printTB (s : String)
  | injectDeps (deps : ResultPayload V)
  | executeNode (idx : Nat)
  | saveJobId (id : Option String)
deriving DecidableEq

/-- First value bound to `name` in a result payload. -/
def lookupPayload {V : Type} (payload : ResultPayload V) (name : String) : Option V :=
  (payload.find? (fun p => p.1 = name)).map Prod.snd

namespace ResultModel

/-- Modelled from the spec: `ResultModel.inject` (nnsight/schema/result,
not under src/) writes each payload entry onto the node of that name,
overwriting its cached value; nodes whose names are absent from the
payload are left untouched; a payload referencing an unknown node name
is a protocol violation and fails loudly (nothing is silently
ignored). -/
def inject {V : Type} (g : Graph V) (payload : ResultPayload V) : Except Err (Graph V) :=
  if payload.all (fun p => g.nodes.any (fun n => n.name == p.1)) then
    Except.ok ⟨g.nodes.map fun n =>
      { n with value := (lookupPayload payload n.name).elim n.value some }⟩
  else Except.error Err.protocolFault

end ResultModel

/-! ## Job state machine (`RemoteBackend.handle_response`,
intervention/backends/remote.py) -/

/-- Embedding of `RemoteBackend.handle_response`.  `fetch` stands for the
out-of-band `get_result` call (download plus decode) and `exec` for the
external `node.execute()` collaborator; `graph` is the optional `graph`
keyword argument (`None` everywhere except the blocking receive loop).
Returns the ordered list of observable actions together with either the
raised error or the pair (returned result, graph after any in-place
mutation).  Dispatch follows the source: `Completed` uses the inline
`data` or downloads by `response.id` when `data` is `None`; `Stream`
injects the dependency values and then executes the node at the carried
index; `NNSIGHT_ERROR` prints the node's stored traceback and raises
`NNsightError(message, node.index)`; `Queued`/`Running` only log.  A
payload shape that does not match its status, a node index outside the
graph, or a streamed payload naming an unknown node (the injection
failing loudly before any execution), is a protocol fault. -/
def handle_response {V : Type} (fetch : String → Except Err (ResultPayload V))
    (exec : Graph V → Nat → Graph V) (resp : Response V) (graph : Option (Graph V)) :
    List (Action V) × Except Err (Option (ResultPayload V) × Option (Graph V)) :=
  match resp.status, resp.data with
  | JobStatus.completed, ResponseData.null =>
      match fetch resp.id with
      | Except.ok r => ([Action.download resp.id], Except.ok (some r, graph))
      | Except.error e => ([Action.download resp.id], Except.error e)
  | JobStatus.completed, ResponseData.result r => ([], Except.ok (some r, graph))
  | JobStatus.stream, ResponseData.streamPayload idx deps =>
      match graph with
      | none => ([], Except.error Err.attributeNone)
      | some g =>
          match ResultModel.inject g deps with
          | Except.error e => ([], Except.error e)
          | Except.ok g' =>
              if idx < g'.nodes.length then
                ([Action.injectDeps deps, Action.executeNode idx],
                  Except.ok (none, some (exec g' idx)))
              else
                ([Action.injectDeps deps], Except.error Err.protocolFault)
  | JobStatus.nnsightError, ResponseData.errorPayload nid msg =>
      match graph with
      | none => ([], Except.error Err.attributeNone)
      | some g =>
          if h : nid < g.nodes.length then
            let errorNode := g.nodes.get ⟨nid, h⟩
            ([Action.printTB errorNode.traceback],
              Except.error (Err.nnsight msg errorNode.index))
          else
            ([], Except.error Err.protocolFault)
  | JobStatus.queued, _ => ([], Except.ok (none, graph))
  | JobStatus.running, _ => ([], Except.ok (none, graph))
  | _, _ => ([], Except.error Err.protocolFault)

/-- Outcome of the blocking duplex receive loop over a finite queue of
already-arrived messages: the loop returned a result, raised, or
consumed every queued message without reaching a terminal one and is
still blocked in `sio.receive()`. -/
inductive LoopOutcome (V : Type) where
  | completedR (result : ResultPayload V) (g : Graph V) (trace : List (Action V))
  | errored (e : Err) (trace : List (Action V))
  | waiting (g : Graph V) (trace : List (Action V))
deriving DecidableEq

/-- The `while True` receive loop of `RemoteBackend.blocking_request`:
each iteration receives the next message, handles it with the caller's
graph, returns the result if one was produced, re-raises any exception,
and otherwise waits for the next message. -/
def receive_loop {V : Type} (fetch : String → Except Err (ResultPayload V))
    (exec : Graph V → Nat → Graph V) (g : Graph V) :
    List (Response V) → List (Action V) → LoopOutcome V
  | [], trace => LoopOutcome.waiting g trace
  | m :: rest, trace =>
      let h := handle_response fetch exec m (some g)
      match h.2 with
      | Except.error e => LoopOutcome.errored e (trace ++ h.1)
      | Except.ok (some r, _) => LoopOutcome.completedR r g (trace ++ h.1)
      | Except.ok (none, g?) => receive_loop fetch exec (g?.getD g) rest (trace ++ h.1)

/-- A message is terminal when handling it ends the receive loop:
`Completed` returns a result and `NNSIGHT_ERROR` raises. -/
def terminalMsg {V : Type} (m : Response V) : Bool :=
  m.status == JobStatus.completed || m.status == JobStatus.nnsightError

/-- A message is well shaped for a graph whose nodes carry the name list
`names` when its payload matches its status, any carried node index is
in range, and a streamed dependency payload references only known node
names. -/
def goodMsg {V : Type} (names : List String) (m : Response V) : Bool :=
  match m.status, m.data with
  | JobStatus.queued, _ => true
  | JobStatus.running, _ => true
  | JobStatus.stream, ResponseData.streamPayload idx deps =>
      decide (idx < names.length) && deps.all (fun p => names.contains p.1)
  | JobStatus.completed, ResponseData.null => true
  | JobStatus.completed, ResponseData.result _ => true
  | JobStatus.nnsightError, ResponseData.errorPayload nid _ => decide (nid < names.length)
  | _, _ => false

/-- The ids of the out-of-band result downloads recorded in a trace. -/
def downloadsOf {V : Type} (tr : List (Action V)) : List String :=
  tr.filterMap (fun a =>
    match a with
    | Action.download id => some id
    | _ => none)

/-! ## Chunked result download (`RemoteBackend.get_result`) -/

/-- One event yielded by `stream.iter_content`: either a chunk of bytes
or the transport layer raising because the connection dropped before
the declared size was received. -/
inductive StreamEvent where
  | chunk (data : List Nat)
  | dropped
deriving DecidableEq

/-- The streamed HTTP reply consumed by `get_result`: the optional
`Content-length` header and the sequence of iterator events. -/
structure HttpStreamReply where
  contentLength : Option Nat
  events : List StreamEvent
deriving DecidableEq

/-- Chunk content of a stream event (`[]` for the drop marker). -/
def chunkData : StreamEvent → List Nat
  | StreamEvent.chunk d => d
  | StreamEvent.dropped => []

/-- The `for data in stream.iter_content(...)` loop: appends each chunk
to the growable buffer and propagates a transport error uncaught. -/
def readChunks : List StreamEvent → List Nat → Except Err (List Nat)
  | [], acc => Except.ok acc
  | StreamEvent.chunk d :: rest, acc => readChunks rest (acc ++ d)
  | StreamEvent.dropped :: _, _ => Except.error Err.connectionDropped

/-- Embedding of `RemoteBackend.get_result` up to decoding: reads the
`Content-length` header (a `KeyError` if absent), then accumulates every
received chunk in arrival order into the buffer.  The declared total is
used only for progress reporting, exactly as in the source. -/
def get_result (stream : HttpStreamReply) : Except Err (List Nat) :=
  match stream.contentLength with
  | none => Except.error (Err.keyError "Content-length")
  | some _total => readChunks stream.events []

/-! ## Non-blocking path (`RemoteBackend.non_blocking_request`,
`RemoteBackend.__call__`) -/

/-- A one-shot HTTP reply: a decoded 200 body or a non-200 failure with
its detail/reason string. -/
inductive HttpReply (V : Type) where
  | ok (resp : Response V)
  | fail (reason : String)
deriving DecidableEq

/-- Embedding of `RemoteBackend.get_response`: polls
`GET /response/{job_id}`, raises on a non-200 status, and otherwise
handles the response with no graph argument, returning the result (if
any). -/
def get_response {V : Type} (fetch : String → Except Err (ResultPayload V))
    (exec : Graph V → Nat → Graph V) (reply : HttpReply V) (jobId : String) :
    List (Action V) × Except Err (Option (ResultPayload V)) :=
  match reply with
  | HttpReply.fail reason => ([Action.poll jobId], Except.error (Err.connection reason))
  | HttpReply.ok resp =>
      let h := handle_response fetch exec resp none
      (Action.poll jobId :: h.1, h.2.map Prod.fst)

/-- Embedding of `RemoteBackend.non_blocking_request`.  With no
persisted job id it serializes the graph, submits it, and persists the
returned job id; with a persisted id it polls once: a non-`None` result
clears the persisted id and returns the result, any exception clears
the persisted id before re-raising, and otherwise the persisted id is
left untouched.  `submitReply`/`pollReply` are the HTTP replies the
server would give on each branch.  Returns (action trace, result or
raised error, persisted job id afterwards). -/
def non_blocking_request {V : Type} (fetch : String → Except Err (ResultPayload V))
    (exec : Graph V → Nat → Graph V) (submitReply pollReply : HttpReply V)
    (jobId : Option String) :
    List (Action V) × Except Err (Option (ResultPayload V)) × Option String :=
  match jobId with
  | none =>
      match submitReply with
      | HttpReply.fail reason =>
          ([Action.serialize, Action.submit],
            Except.error (Err.connection reason), none)
      | HttpReply.ok resp =>
          let h := handle_response fetch exec resp none
          match h.2 with
          | Except.error e =>
              ([Action.serialize, Action.submit] ++ h.1, Except.error e, none)
          | Except.ok _ =>
              ([Action.serialize, Action.submit] ++ h.1 ++ [Action.saveJobId (some resp.id)],
                Except.ok none, some resp.id)
  | some j =>
      let p := get_response fetch exec pollReply j
      match p.2 with
      | Except.error e => (p.1 ++ [Action.saveJobId none], Except.error e, none)
      | Except.ok (some r) => (p.1 ++ [Action.saveJobId none], Except.ok (some r), none)
      | Except.ok none => (p.1, Except.ok none, jobId)

/-- Embedding of the non-blocking side of `RemoteBackend.__call__`: runs
`non_blocking_request` and, when it returned a result, injects it into
the caller's graph; an injection failure (a payload naming an unknown
node) propagates as the raised error.  Returns (trace, raised error or
resulting graph, persisted job id afterwards). -/
def remoteCall_nonblocking {V : Type} (fetch : String → Except Err (ResultPayload V))
    (exec : Graph V → Nat → Graph V) (submitReply pollReply : HttpReply V)
    (jobId : Option String) (g : Graph V) :
    List (Action V) × Except Err (Graph V) × Option String :=
  let r := non_blocking_request fetch exec submitReply pollReply jobId
  match r.2.1 with
  | Except.error e => (r.1, Except.error e, r.2.2)
  | Except.ok none => (r.1, Except.ok g, r.2.2)
  | Except.ok (some res) =>
      match ResultModel.inject g res with
      | Except.ok g' => (r.1, Except.ok g', r.2.2)
      | Except.error e => (r.1, Except.error e, r.2.2)

/-! ## Graph preprocessing for serialization (`preprocess`), with an
object store making the copy-then-mutate discipline observable -/

/-- Modelled from the spec: `LocalContext.prune`
(nnsight/intervention/contexts/local, not under src/) removes a
local-only coordination node; applied over a whole graph it drops every
node whose target is `LocalContext`. -/
def pruneLocal {V : Type} (g : Graph V) : Graph V :=
  ⟨g.nodes.filter (fun n => !(n.target == Target.localContext))⟩

/-- A heap of graph objects addressed by position, making Python object
identity and in-place mutation explicit. -/
structure Store (V : Type) where
  graphs : List (Graph V)
deriving DecidableEq

/-- The graph object at address `ref`. -/
def Store.getG {V : Type} (s : Store V) (ref : Nat) : Graph V :=
  s.graphs.getD ref ⟨[]⟩

/-- Overwrite the graph object at address `ref` (in-place mutation). -/
def Store.setG {V : Type} (s : Store V) (ref : Nat) (g : Graph V) : Store V :=
  ⟨s.graphs.set ref g⟩

/-- Modelled from the spec: `Graph.copy` (nnsight/tracing/graph, not
under src/) allocates a fresh graph object with the same nodes and
returns its address. -/
def Store.copyG {V : Type} (s : Store V) (ref : Nat) : Store V × Nat :=
  (⟨s.graphs ++ [s.getG ref]⟩, s.graphs.length)

/-- Embedding of `preprocess`: copies the graph, then prunes every
`LocalContext` node from the copy in place, returning the address of
the pruned copy. -/
def preprocess {V : Type} (s : Store V) (ref : Nat) : Store V × Nat :=
  let c := s.copyG ref
  (c.1.setG c.2 (pruneLocal (c.1.getG c.2)), c.2)

/-- Embedding of the graph-reading part of `RemoteBackend.serialize`:
encoding is a pure function of the referenced graph (format choice and
compression are folded into `encode`) and performs no store write. -/
def serialize {V : Type} (encode : Graph V → List Nat) (s : Store V) (ref : Nat) :
    List Nat :=
  encode (s.getG ref)

/-! ## Concrete sample objects used by witnesses -/

/-- A sample node used by concrete witnesses. -/
def sampleNode (nm : String) (i : Nat) (tb : String) : Node Nat :=
  { name := nm, index := i, target := Target.op "f", value := none, traceback := tb }

/-- A sample two-node graph used by concrete witnesses. -/
def sampleGraph : Graph Nat := ⟨[sampleNode "a" 0 "tb0", sampleNode "b" 1 "tb1"]⟩

/-- A sample always-succeeding result download used by witnesses. -/
def okFetch : String → Except Err (ResultPayload Nat) := fun _ => Except.ok [("a", 5)]

/-- A sample node-execution collaborator that leaves the graph as is. -/
def idExec : Graph Nat → Nat → Graph Nat := fun g _ => g

/-! ## General lemmas -/

theorem batchLoop_snd {α β γ : Type} (prepare : γ → β × Nat) (combine : Option α → β → α)
    (xs : List γ) (b : Option α) (s : Nat) (gs : List (Nat × Nat)) :
    (batchLoop prepare combine xs b s gs).2 =
      gs ++ groupsFrom s (xs.map (fun x => (prepare x).2)) := by
  induction xs generalizing b s gs with
  | nil => simp [batchLoop, groupsFrom]
  | cons x rest ih =>
      simp only [batchLoop, List.map_cons, groupsFrom]
      rw [ih]
      simp

theorem batchLoop_fst_isSome {α β γ : Type} (prepare : γ → β × Nat)
    (combine : Option α → β → α) (xs : List γ) (b : Option α) (s : Nat)
    (gs : List (Nat × Nat)) (hx : xs ≠ [] ∨ b.isSome) :
    (batchLoop prepare combine xs b s gs).1.isSome := by
  induction xs generalizing b s gs with
  | nil =>
      rcases hx with hx | hx
      · exact absurd rfl hx
      · simpa [batchLoop] using hx
  | cons x rest ih =>
      simp only [batchLoop]
      exact ih _ _ _ (Or.inr (by simp))

theorem groupsFrom_length (s : Nat) (ls : List Nat) :
    (groupsFrom s ls).length = ls.length := by
  induction ls generalizing s with
  | nil => simp [groupsFrom]
  | cons l ls ih => simp [groupsFrom, ih]

theorem groupsFrom_get (s : Nat) (ls : List Nat) (i : Nat) (h : i < ls.length) :
    (groupsFrom s ls).get ⟨i, by rw [groupsFrom_length]; exact h⟩ =
      (s + (ls.take i).sum, ls.get ⟨i, h⟩) := by
  induction ls generalizing s i with
  | nil => simp at h
  | cons l ls ih =>
      cases i with
      | zero => simp [groupsFrom]
      | succ j =>
          simp only [groupsFrom, List.get_cons_succ, List.take_succ_cons, List.sum_cons]
          rw [ih (s + l) j (by simpa using h)]
          ring_nf

theorem sum_take_le (ls : List Nat) (i : Nat) : (ls.take i).sum ≤ ls.sum := by
  conv_rhs => rw [← List.take_append_drop i ls]
  rw [List.sum_append]
  exact Nat.le_add_right _ _

theorem sum_take_succ_eq (ls : List Nat) (i : Nat) (h : i < ls.length) :
    (ls.take (i + 1)).sum = (ls.take i).sum + ls.get ⟨i, h⟩ := by
  induction ls generalizing i with
  | nil => simp at h
  | cons l ls ih =>
      cases i with
      | zero => simp
      | succ j =>
          simp only [List.take_succ_cons, List.sum_cons, List.get_cons_succ]
          rw [ih j (by simpa using h)]
          ring

theorem sum_take_mono (ls : List Nat) {i j : Nat} (h : i ≤ j) :
    (ls.take i).sum ≤ (ls.take j).sum := by
  have : ls.take i = (ls.take j).take i := by rw [List.take_take, Nat.min_eq_left h]
  rw [this]
  exact sum_take_le _ _

theorem coverage_exists (ls : List Nat) (x : Nat) (hx : x < ls.sum) :
    ∃ i, ∃ h : i < ls.length,
      (ls.take i).sum ≤ x ∧ x < (ls.take i).sum + ls.get ⟨i, h⟩ := by
  induction ls generalizing x with
  | nil => simp at hx
  | cons l ls ih =>
      by_cases hl : x < l
      · exact ⟨0, by simp, by simp, by simpa using hl⟩
      · push_neg at hl
        have hx' : x - l < ls.sum := by
          simp only [List.sum_cons] at hx
          omega
        obtain ⟨i, h, h1, h2⟩ := ih (x - l) hx'
        refine ⟨i + 1, by simpa using h, ?_, ?_⟩
        · simp only [List.take_succ_cons, List.sum_cons]
          omega
        · simp only [List.take_succ_cons, List.sum_cons, List.get_cons_succ]
          omega

theorem known_name_bridge {V : Type} (g : Graph V) (p : ResultPayload V)
    (h : p.all (fun q => (g.nodes.map Node.name).contains q.1) = true) :
    p.all (fun q => g.nodes.any (fun n => n.name == q.1)) = true := by
  rw [List.all_eq_true] at h ⊢
  intro q hq
  rw [List.any_eq_true]
  have hc := h q hq
  rw [List.elem_iff, List.mem_map] at hc
  obtain ⟨n, hn, hname⟩ := hc
  exact ⟨n, hn, by simp [hname]⟩

theorem inject_ok_of_known {V : Type} (g : Graph V) (p : ResultPayload V)
    (h : p.all (fun q => (g.nodes.map Node.name).contains q.1) = true) :
    ResultModel.inject g p =
      Except.ok ⟨g.nodes.map fun n =>
        { n with value := (lookupPayload p n.name).elim n.value some }⟩ := by
  simp [ResultModel.inject, known_name_bridge g p h]

theorem inject_ok_names {V : Type} (g g' : Graph V) (p : ResultPayload V)
    (h : ResultModel.inject g p = Except.ok g') :
    g'.nodes.map Node.name = g.nodes.map Node.name ∧ g'.nodes.length = g.nodes.length := by
  simp only [ResultModel.inject] at h
  split at h
  · injection h with h
    subst h
    constructor
    · rw [List.map_map]
      rfl
    · simp
  · exact Except.noConfusion h

theorem inject_resolves {V : Type} (g g' : Graph V) (p : ResultPayload V)
    (hok : ResultModel.inject g p = Except.ok g')
    (name : String) (v : V) (hv : lookupPayload p name = some v) :
    ∀ n ∈ g'.nodes, n.name = name → n.value = some v := by
  simp only [ResultModel.inject] at hok
  split at hok
  · injection hok with hok
    subst hok
    intro n hn hname
    simp only [List.mem_map] at hn
    obtain ⟨m, _, hm⟩ := hn
    subst hm
    simp only at hname ⊢
    rw [hname, hv]
    rfl
  · exact Except.noConfusion hok

theorem getD_of_lt {α : Type} (l : List α) (d : α) (i : Nat) (h : i < l.length) :
    l.getD i d = l.get ⟨i, h⟩ := by
  simp [List.getD, List.getElem?_eq_getElem h]

theorem Tracer.batch_snd {α β γ : Type} (prepare : γ → β × Nat) (combine : Option α → β → α)
    (xs : List γ) :
    (Tracer.batch prepare combine xs).2 = groupsFrom 0 (xs.map fun x => (prepare x).2) := by
  have h := batchLoop_snd prepare combine xs none 0 []
  simpa [Tracer.batch] using h

theorem groupsFrom_getD (s : Nat) (ls : List Nat) (i : Nat) (h : i < ls.length) :
    (groupsFrom s ls).getD i (0, 0) = (s + (ls.take i).sum, ls.getD i 0) := by
  rw [getD_of_lt _ _ i (by rw [groupsFrom_length]; exact h), groupsFrom_get s ls i h,
    getD_of_lt _ _ i h]

/-- Claim C1: for an ordered sequence of n invocations whose prepare step
reports lengths L1..Ln, `Tracer.batch` returns exactly n
(startOffset, length) groups in submission order, the i-th equal to
(L1+...+L(i-1), Li); consecutive groups are contiguous, the groups are
pairwise non-overlapping and cover exactly [0, L1+...+Ln); a zero-length
invocation still yields its own group entry, so the group count equals
the invocation count. -/
theorem c1_batch_plan {α β γ : Type} (prepare : γ → β × Nat) (combine : Option α → β → α)
    (invoker_inputs : List γ) (G : List (Nat × Nat)) (L : List Nat)
    (hG : G = (Tracer.batch prepare combine invoker_inputs).2)
    (hL : L = invoker_inputs.map (fun x => (prepare x).2)) :
    G.length = invoker_inputs.length
    ∧ (∀ i, i < invoker_inputs.length →
        G.getD i (0, 0) = ((L.take i).sum, L.getD i 0))
    ∧ (∀ i, i + 1 < invoker_inputs.length →
        (G.getD (i + 1) (0, 0)).1 = (G.getD i (0, 0)).1 + (G.getD i (0, 0)).2)
    ∧ (∀ x, x < L.sum ↔
        ∃ i, i < invoker_inputs.length ∧ (G.getD i (0, 0)).1 ≤ x ∧
          x < (G.getD i (0, 0)).1 + (G.getD i (0, 0)).2)
    ∧ (∀ i j x, i < j → j < invoker_inputs.length →
        ¬((G.getD i (0, 0)).1 ≤ x ∧ x < (G.getD i (0, 0)).1 + (G.getD i (0, 0)).2 ∧
          (G.getD j (0, 0)).1 ≤ x ∧ x < (G.getD j (0, 0)).1 + (G.getD j (0, 0)).2)) := by
  subst hG hL
  rw [Tracer.batch_snd]
  have hlen : ∀ i, i < invoker_inputs.length ↔
      i < (invoker_inputs.map (fun x => (prepare x).2)).length := by
    intro i; rw [List.length_map]
  set L := invoker_inputs.map (fun x => (prepare x).2) with hLdef
  have hget : ∀ i, i < L.length →
      (groupsFrom 0 L).getD i (0, 0) = ((L.take i).sum, L.getD i 0) := by
    intro i hi
    rw [groupsFrom_getD 0 L i hi, Nat.zero_add]
  refine ⟨?_, ?_, ?_, ?_, ?_⟩
  · rw [groupsFrom_length, List.length_map]
  · intro i hi
    exact hget i ((hlen i).mp hi)
  · intro i hi
    have hi1 : i + 1 < L.length := (hlen (i + 1)).mp hi
    have hi0 : i < L.length := Nat.lt_of_succ_lt hi1
    rw [hget (i + 1) hi1, hget i hi0]
    simp only
    rw [getD_of_lt L 0 i hi0, sum_take_succ_eq L i hi0]
  · intro x
    constructor
    · intro hx
      obtain ⟨i, hi, h1, h2⟩ := coverage_exists L x hx
      refine ⟨i, (hlen i).mpr hi, ?_, ?_⟩
      · rw [hget i hi]; exact h1
      · rw [hget i hi]
        simp only
        rw [getD_of_lt L 0 i hi]
        exact h2
    · rintro ⟨i, hi, h1, h2⟩
      have hi' : i < L.length := (hlen i).mp hi
      rw [hget i hi'] at h1 h2
      simp only at h1 h2
      rw [getD_of_lt L 0 i hi'] at h2
      calc x < (L.take i).sum + L.get ⟨i, hi'⟩ := h2
        _ = (L.take (i + 1)).sum := (sum_take_succ_eq L i hi').symm
        _ ≤ L.sum := sum_take_le L (i + 1)
  · intro i j x hij hj
    rintro ⟨_, h2, h3, _⟩
    have hj' : j < L.length := (hlen j).mp hj
    have hi' : i < L.length := Nat.lt_trans hij hj'
    rw [hget i hi'] at h2
    rw [hget j hj'] at h3
    simp only at h2 h3
    rw [getD_of_lt L 0 i hi'] at h2
    have hmono : (L.take (i + 1)).sum ≤ (L.take j).sum := sum_take_mono L hij
    rw [sum_take_succ_eq L i hi'] at hmono
    omega

/-- Witness for C1 at a concrete three-invocation plan with prepared
lengths [2, 0, 3]: the second group is (2, 0). -/
theorem c1_batch_plan_witness :
    (Tracer.batch (fun n : Nat => (n, n)) (fun (b : Option Nat) (x : Nat) => b.getD 0 + x)
      [2, 0, 3]).2.getD 1 (0, 0) = (2, 0) := by
  have h := c1_batch_plan (fun n : Nat => (n, n))
    (fun (b : Option Nat) (x : Nat) => b.getD 0 + x) [2, 0, 3] _ _ rfl rfl
  exact (h.2.1 1 (by decide)).trans (by decide)

/-- Claim C9: with zero invocations, `Tracer.batch` substitutes the
single implicit group `(0, -1)` spanning the whole (possibly empty)
default input (`-1` denoting the full default-input length), with an
empty explicit group list; and the implicit group appears exactly when
zero invocations were supplied. -/
theorem c9_batch_zero_invocations {α β γ : Type} (prepare : γ → β × Nat)
    (combine : Option α → β → α) :
    Tracer.batch prepare combine ([] : List γ) =
      ((BatchedInput.implicitGroup 0 (-1) : BatchedInput α), ([] : List (Nat × Nat)))
    ∧ ∀ xs : List γ,
        ((Tracer.batch prepare combine xs).1 = BatchedInput.implicitGroup 0 (-1) ↔ xs = []) := by
  constructor
  · rfl
  · intro xs
    constructor
    · intro h
      by_contra hne
      have hs := batchLoop_fst_isSome prepare combine xs none 0 [] (Or.inl hne)
      simp only [Tracer.batch] at h
      rcases hfst : (batchLoop prepare combine xs none 0 []).1 with _ | a
      · rw [hfst] at hs; simp at hs
      · rw [hfst] at h; simp at h
    · intro h
      subst h
      rfl

/-- Witness for C9: a concrete zero-invocation plan yields the implicit
group, and a concrete one-invocation plan does not. -/
theorem c9_batch_zero_invocations_witness :
    Tracer.batch (fun n : Nat => (n, n)) (fun (b : Option Nat) (x : Nat) => b.getD 0 + x)
      ([] : List Nat) = (BatchedInput.implicitGroup 0 (-1), [])
    ∧ (Tracer.batch (fun n : Nat => (n, n)) (fun (b : Option Nat) (x : Nat) => b.getD 0 + x)
        [5]).1 ≠ BatchedInput.implicitGroup 0 (-1) := by
  have h := c9_batch_zero_invocations (fun n : Nat => (n, n))
    (fun (b : Option Nat) (x : Nat) => b.getD 0 + x)
  refine ⟨h.1, fun hh => ?_⟩
  have := (h.2 [5]).mp hh
  simp at this

theorem handle_response_trace_shape {V : Type} (fetch : String → Except Err (ResultPayload V))
    (exec : Graph V → Nat → Graph V) (resp : Response V) (graph : Option (Graph V)) :
    ∀ a ∈ (handle_response fetch exec resp graph).1,
      (∃ i, a = Action.download i) ∨ (∃ s, a = Action.printTB s) ∨
      (∃ d, a = Action.injectDeps d) ∨ (∃ i, a = Action.executeNode i) := by
  intro a ha
  rcases resp with ⟨id, status, data⟩
  cases status <;> cases data <;> cases graph <;>
    simp only [handle_response] at ha <;>
    repeat' split at ha
  all_goals aesop

/-- Claim C3: when a Completed status message is handled, exactly one
out-of-band download keyed by the message's job id occurs if and only if
the message's data payload is null; an inline payload is used directly
with no download, and never is more than one download performed. -/
theorem c3_completed_single_download {V : Type} (fetch : String → Except Err (ResultPayload V))
    (exec : Graph V → Nat → Graph V) (resp : Response V) (graph : Option (Graph V))
    (hs : resp.status = JobStatus.completed) :
    (downloadsOf (handle_response fetch exec resp graph).1 = [resp.id] ↔
      resp.data = ResponseData.null)
    ∧ (downloadsOf (handle_response fetch exec resp graph).1).length ≤ 1
    ∧ (∀ r, resp.data = ResponseData.result r →
        handle_response fetch exec resp graph = ([], Except.ok (some r, graph))) := by
  rcases resp with ⟨id, status, data⟩
  simp only at hs
  subst hs
  cases data with
  | null =>
      simp only [handle_response]
      cases h : fetch id <;> simp [downloadsOf]
  | result r => simp [handle_response, downloadsOf]
  | streamPayload idx deps => simp [handle_response, downloadsOf]
  | errorPayload nid msg => simp [handle_response, downloadsOf]

/-- Witness for C3 at a concrete Completed message with null data: the
trace holds exactly the one download keyed by the job id. -/
theorem c3_completed_single_download_witness :
    downloadsOf (handle_response okFetch idExec
      ⟨"job-42", JobStatus.completed, ResponseData.null⟩ (some sampleGraph)).1 = ["job-42"] := by
  exact (c3_completed_single_download okFetch idExec
    ⟨"job-42", JobStatus.completed, ResponseData.null⟩ (some sampleGraph) rfl).1.mpr rfl

/-- Claim C4: handling a remote-computation-error status prints the
offending node's stored remote traceback and raises the typed
`NNsightError` carrying the server-provided message and the offending
node's index; the call terminates abnormally with no retry. -/
theorem c4_error_raises {V : Type} (fetch : String → Except Err (ResultPayload V))
    (exec : Graph V → Nat → Graph V) (resp : Response V) (g : Graph V)
    (nid : Nat) (msg : String) (hs : resp.status = JobStatus.nnsightError)
    (hd : resp.data = ResponseData.errorPayload nid msg) (hn : nid < g.nodes.length) :
    handle_response fetch exec resp (some g) =
      ([Action.printTB (g.nodes.get ⟨nid, hn⟩).traceback],
        Except.error (Err.nnsight msg (g.nodes.get ⟨nid, hn⟩).index)) := by
  rcases resp with ⟨id, status, data⟩
  simp only at hs hd
  subst hs
  subst hd
  simp [handle_response, hn]

/-- Witness for C4 at a concrete error message naming node 1 of the
sample graph: its traceback is printed and `NNsightError("boom", 1)` is
raised. -/
theorem c4_error_raises_witness :
    handle_response okFetch idExec
      ⟨"job-42", JobStatus.nnsightError, ResponseData.errorPayload 1 "boom"⟩
      (some sampleGraph) =
      ([Action.printTB "tb1"], Except.error (Err.nnsight "boom" 1)) := by
  exact (c4_error_raises okFetch idExec
    ⟨"job-42", JobStatus.nnsightError, ResponseData.errorPayload 1 "boom"⟩
    sampleGraph 1 "boom" rfl rfl (by decide)).trans rfl

/-- Claim C7: a Stream message carrying (nodeIndex, dependencyValues)
injects the dependency values into the caller's graph strictly before
the node at nodeIndex is executed: when the injection succeeds, the
injection action precedes the execution action and the graph handed to
the execution step already binds every payload name to its streamed
value, so the node's declared dependencies are resolvable at execution
time; a payload naming an unknown node fails loudly before any node is
executed. -/
theorem c7_stream_injects_before_execute {V : Type}
    (fetch : String → Except Err (ResultPayload V)) (exec : Graph V → Nat → Graph V)
    (resp : Response V) (g : Graph V) (idx : Nat) (deps : ResultPayload V)
    (hs : resp.status = JobStatus.stream) (hd : resp.data = ResponseData.streamPayload idx deps)
    (hidx : idx < g.nodes.length) :
    (∀ g', ResultModel.inject g deps = Except.ok g' →
      handle_response fetch exec resp (some g) =
        ([Action.injectDeps deps, Action.executeNode idx],
          Except.ok (none, some (exec g' idx)))
      ∧ (∀ name v, lookupPayload deps name = some v →
          ∀ n ∈ g'.nodes, n.name = name → n.value = some v))
    ∧ (∀ e, ResultModel.inject g deps = Except.error e →
        handle_response fetch exec resp (some g) = ([], Except.error e)) := by
  rcases resp with ⟨id, status, data⟩
  simp only at hs hd
  subst hs
  subst hd
  constructor
  · intro g' hok
    have hlen := (inject_ok_names g g' deps hok).2
    constructor
    · simp [handle_response, hok, hlen, hidx]
    · exact inject_resolves g g' deps hok
  · intro e herr
    simp [handle_response, herr]

/-- Witness for C7 at a concrete Stream message for node 1 with the
dependency value 5 for the known node "a": injection succeeds and the
execution step receives the graph with "a" already bound to 5. -/
theorem c7_stream_injects_before_execute_witness :
    handle_response okFetch idExec
      ⟨"job-42", JobStatus.stream, ResponseData.streamPayload 1 [("a", 5)]⟩
      (some sampleGraph) =
      ([Action.injectDeps [("a", 5)], Action.executeNode 1],
        Except.ok (none, some
          ⟨[{ sampleNode "a" 0 "tb0" with value := some 5 }, sampleNode "b" 1 "tb1"]⟩)) := by
  exact ((c7_stream_injects_before_execute okFetch idExec
    ⟨"job-42", JobStatus.stream, ResponseData.streamPayload 1 [("a", 5)]⟩
    sampleGraph 1 [("a", 5)] rfl rfl (by decide)).1
    ⟨[{ sampleNode "a" 0 "tb0" with value := some 5 }, sampleNode "b" 1 "tb1"]⟩ rfl).1

theorem receive_loop_cons {V : Type} (fetch : String → Except Err (ResultPayload V))
    (exec : Graph V → Nat → Graph V) (g : Graph V) (m : Response V)
    (rest : List (Response V)) (trace : List (Action V)) :
    receive_loop fetch exec g (m :: rest) trace =
      match (handle_response fetch exec m (some g)).2 with
      | Except.error e =>
          LoopOutcome.errored e (trace ++ (handle_response fetch exec m (some g)).1)
      | Except.ok (some r, _) =>
          LoopOutcome.completedR r g (trace ++ (handle_response fetch exec m (some g)).1)
      | Except.ok (none, g?) =>
          receive_loop fetch exec (g?.getD g) rest
            (trace ++ (handle_response fetch exec m (some g)).1) := rfl

theorem handle_response_nonterminal {V : Type} (fetch : String → Except Err (ResultPayload V))
    (exec : Graph V → Nat → Graph V)
    (hexec : ∀ gr i, (exec gr i).nodes.map Node.name = gr.nodes.map Node.name)
    (m : Response V) (g : Graph V) (hg : goodMsg (g.nodes.map Node.name) m = true)
    (hnt : terminalMsg m = false) :
    ∃ tr g', handle_response fetch exec m (some g) = (tr, Except.ok (none, some g'))
      ∧ g'.nodes.map Node.name = g.nodes.map Node.name := by
  rcases m with ⟨id, status, data⟩
  cases status with
  | queued => exact ⟨[], g, by cases data <;> simp [handle_response], rfl⟩
  | running => exact ⟨[], g, by cases data <;> simp [handle_response], rfl⟩
  | stream =>
      cases data with
      | streamPayload idx deps =>
          simp only [goodMsg, Bool.and_eq_true, decide_eq_true_eq] at hg
          obtain ⟨hidx, hknown⟩ := hg
          have hidx' : idx < g.nodes.length := by simpa using hidx
          have hok := inject_ok_of_known g deps hknown
          obtain ⟨hnames, hlen⟩ := inject_ok_names g _ deps hok
          refine ⟨[Action.injectDeps deps, Action.executeNode idx],
            exec ⟨g.nodes.map fun n =>
              { n with value := (lookupPayload deps n.name).elim n.value some }⟩ idx, ?_, ?_⟩
          · simp [handle_response, hok, hlen, hidx']
          · rw [hexec, hnames]
      | null => simp [goodMsg] at hg
      | result r => simp [goodMsg] at hg
      | errorPayload nid msg => simp [goodMsg] at hg
  | completed => simp [terminalMsg] at hnt
  | nnsightError => simp [terminalMsg] at hnt

theorem handle_response_completed_ok {V : Type} (fetch : String → Except Err (ResultPayload V))
    (exec : Graph V → Nat → Graph V) (m : Response V) (g : Graph V)
    (hfetch : ∀ i, ∃ r, fetch i = Except.ok r)
    (hg : goodMsg (g.nodes.map Node.name) m = true) (hs : m.status = JobStatus.completed) :
    ∃ r tr, handle_response fetch exec m (some g) = (tr, Except.ok (some r, some g)) := by
  rcases m with ⟨id, status, data⟩
  simp only at hs
  subst hs
  cases data with
  | null =>
      obtain ⟨r, hr⟩ := hfetch id
      exact ⟨r, [Action.download id], by simp [handle_response, hr]⟩
  | result r => exact ⟨r, [], by simp [handle_response]⟩
  | streamPayload idx deps => simp [goodMsg] at hg
  | errorPayload nid msg => simp [goodMsg] at hg

theorem handle_response_nnsight_error {V : Type} (fetch : String → Except Err (ResultPayload V))
    (exec : Graph V → Nat → Graph V) (m : Response V) (g : Graph V)
    (hg : goodMsg (g.nodes.map Node.name) m = true) (hs : m.status = JobStatus.nnsightError) :
    ∃ tr e, handle_response fetch exec m (some g) = (tr, Except.error e) := by
  rcases m with ⟨id, status, data⟩
  simp only at hs
  subst hs
  cases data with
  | errorPayload nid msg =>
      simp only [goodMsg, decide_eq_true_eq] at hg
      have hg' : nid < g.nodes.length := by simpa using hg
      exact ⟨[Action.printTB (g.nodes.get ⟨nid, hg'⟩).traceback],
        Err.nnsight msg (g.nodes.get ⟨nid, hg'⟩).index, by simp [handle_response, hg']⟩
  | null => simp [goodMsg] at hg
  | result r => simp [goodMsg] at hg
  | streamPayload idx deps => simp [goodMsg] at hg

theorem exists_first_terminal {V : Type} (msgs : List (Response V))
    (h : ∃ m ∈ msgs, terminalMsg m = true) :
    ∃ pre m post, msgs = pre ++ m :: post ∧ (∀ x ∈ pre, terminalMsg x = false)
      ∧ terminalMsg m = true := by
  induction msgs with
  | nil => simp at h
  | cons a rest ih =>
      by_cases ha : terminalMsg a = true
      · exact ⟨[], a, rest, rfl, by simp, ha⟩
      · have ha' : terminalMsg a = false := by simpa using ha
        obtain ⟨m, hm, ht⟩ := h
        rcases List.mem_cons.mp hm with rfl | hm'
        · exact absurd ht ha
        · obtain ⟨pre, m', post, he, hp, ht'⟩ := ih ⟨m, hm', ht⟩
          refine ⟨a :: pre, m', post, by rw [he]; rfl, ?_, ht'⟩
          intro x hx
          rcases List.mem_cons.mp hx with rfl | hx'
          · exact ha'
          · exact hp x hx'

theorem receive_loop_all_nonterminal {V : Type} (fetch : String → Except Err (ResultPayload V))
    (exec : Graph V → Nat → Graph V)
    (hexec : ∀ gr i, (exec gr i).nodes.map Node.name = gr.nodes.map Node.name)
    (names : List String) :
    ∀ (msgs : List (Response V)) (g : Graph V) (trace : List (Action V)),
      g.nodes.map Node.name = names → (∀ m ∈ msgs, goodMsg names m = true) →
      (∀ m ∈ msgs, terminalMsg m = false) →
      ∃ g' tr, receive_loop fetch exec g msgs trace = LoopOutcome.waiting g' tr
        ∧ g'.nodes.map Node.name = names := by
  intro msgs
  induction msgs with
  | nil =>
      intro g trace hn _ _
      exact ⟨g, trace, rfl, hn⟩
  | cons m rest ih =>
      intro g trace hn hgood hnt
      obtain ⟨tr, g', hh, hlen⟩ := handle_response_nonterminal fetch exec hexec m g
        (by rw [hn]; exact hgood m (List.mem_cons_self m rest))
        (hnt m (List.mem_cons_self m rest))
      have step : receive_loop fetch exec g (m :: rest) trace =
          receive_loop fetch exec g' rest (trace ++ tr) := by
        rw [receive_loop_cons, hh]
        rfl
      rw [step]
      exact ih g' (trace ++ tr) (hlen.trans hn)
        (fun y hy => hgood y (List.mem_cons_of_mem m hy))
        (fun y hy => hnt y (List.mem_cons_of_mem m hy))

theorem receive_loop_first_terminal {V : Type} (fetch : String → Except Err (ResultPayload V))
    (exec : Graph V → Nat → Graph V)
    (hexec : ∀ gr i, (exec gr i).nodes.map Node.name = gr.nodes.map Node.name)
    (hfetch : ∀ i, ∃ r, fetch i = Except.ok r) (names : List String) :
    ∀ (pre : List (Response V)) (m : Response V) (post : List (Response V))
      (g : Graph V) (trace : List (Action V)),
      g.nodes.map Node.name = names →
      (∀ x ∈ pre, goodMsg names x = true ∧ terminalMsg x = false) →
      goodMsg names m = true →
      ((m.status = JobStatus.completed →
          ∃ r g' tr, receive_loop fetch exec g (pre ++ m :: post) trace =
            LoopOutcome.completedR r g' tr)
        ∧ (m.status = JobStatus.nnsightError →
          ∃ e tr, receive_loop fetch exec g (pre ++ m :: post) trace =
            LoopOutcome.errored e tr)) := by
  intro pre
  induction pre with
  | nil =>
      intro m post g trace hn _ hm
      constructor
      · intro hs
        obtain ⟨r, tr, hh⟩ := handle_response_completed_ok fetch exec m g hfetch
          (by rw [hn]; exact hm) hs
        exact ⟨r, g, trace ++ tr, by rw [List.nil_append, receive_loop_cons, hh]⟩
      · intro hs
        obtain ⟨tr, e, hh⟩ := handle_response_nnsight_error fetch exec m g
          (by rw [hn]; exact hm) hs
        exact ⟨e, trace ++ tr, by rw [List.nil_append, receive_loop_cons, hh]⟩
  | cons x pre ih =>
      intro m post g trace hn hpre hm
      obtain ⟨tr, g', hh, hlen⟩ := handle_response_nonterminal fetch exec hexec x g
        (by rw [hn]; exact (hpre x (List.mem_cons_self x pre)).1)
        ((hpre x (List.mem_cons_self x pre)).2)
      have step : receive_loop fetch exec g ((x :: pre) ++ m :: post) trace =
          receive_loop fetch exec g' (pre ++ m :: post) (trace ++ tr) := by
        rw [List.cons_append, receive_loop_cons, hh]
        rfl
      rw [step]
      exact ih m post g' (trace ++ tr) (hlen.trans hn)
        (fun y hy => hpre y (List.mem_cons_of_mem x hy)) hm

/-- Claim C2: the blocking duplex receive loop terminates if and only if
a terminal message arrives: over any queue of well-shaped messages it is
still waiting exactly when no terminal message is queued; when the first
terminal message is a Completed it returns exactly one result payload,
and when it is an Error it terminates abnormally by raising; every
Queued, Running, or Stream message before that point is passed over and
the loop returns to waiting. -/
theorem c2_blocking_loop_terminates {V : Type} (fetch : String → Except Err (ResultPayload V))
    (exec : Graph V → Nat → Graph V) (g : Graph V) (msgs : List (Response V))
    (hexec : ∀ gr i, (exec gr i).nodes.map Node.name = gr.nodes.map Node.name)
    (hfetch : ∀ i, ∃ r, fetch i = Except.ok r)
    (hgood : ∀ m ∈ msgs, goodMsg (g.nodes.map Node.name) m = true) :
    ((∃ g' tr, receive_loop fetch exec g msgs [] = LoopOutcome.waiting g' tr) ↔
      ∀ m ∈ msgs, terminalMsg m = false)
    ∧ (∀ pre m post, msgs = pre ++ m :: post → (∀ x ∈ pre, terminalMsg x = false) →
        ((m.status = JobStatus.completed →
            ∃ r g' tr, receive_loop fetch exec g msgs [] = LoopOutcome.completedR r g' tr)
          ∧ (m.status = JobStatus.nnsightError →
            ∃ e tr, receive_loop fetch exec g msgs [] = LoopOutcome.errored e tr))) := by
  constructor
  · constructor
    · rintro ⟨g', tr, hw⟩
      by_contra hc
      push_neg at hc
      obtain ⟨m, hm, ht⟩ := hc
      have ht' : terminalMsg m = true := by simpa using ht
      obtain ⟨pre, m', post, he, hp, ht2⟩ := exists_first_terminal msgs ⟨m, hm, ht'⟩
      have hft := receive_loop_first_terminal fetch exec hexec hfetch (g.nodes.map Node.name)
        pre m' post g [] rfl
        (fun x hx => ⟨hgood x (he ▸ List.mem_append_left _ hx), hp x hx⟩)
        (hgood m' (he ▸ List.mem_append_right _ (List.mem_cons_self _ _)))
      rw [he] at hw
      have hst : m'.status = JobStatus.completed ∨ m'.status = JobStatus.nnsightError := by
        simpa [terminalMsg] using ht2
      rcases hst with hs | hs
      · obtain ⟨r, g2, tr2, hout⟩ := hft.1 hs
        rw [hw] at hout
        simp at hout
      · obtain ⟨e, tr2, hout⟩ := hft.2 hs
        rw [hw] at hout
        simp at hout
    · intro hall
      obtain ⟨g', tr, hw, _⟩ := receive_loop_all_nonterminal fetch exec hexec
        (g.nodes.map Node.name) msgs g [] rfl hgood hall
      exact ⟨g', tr, hw⟩
  · intro pre m post he hp
    subst he
    exact receive_loop_first_terminal fetch exec hexec hfetch (g.nodes.map Node.name)
      pre m post g [] rfl
      (fun x hx => ⟨hgood x (List.mem_append_left _ hx), hp x hx⟩)
      (hgood m (List.mem_append_right _ (List.mem_cons_self _ _)))

/-- Witness for C2 at a concrete queue Queued, Running, Stream,
Completed: the loop passes the three non-terminal messages and returns a
result at the Completed one. -/
theorem c2_blocking_loop_terminates_witness :
    ∃ r g' tr,
      receive_loop okFetch idExec sampleGraph
        [⟨"job-42", JobStatus.queued, ResponseData.null⟩,
          ⟨"job-42", JobStatus.running, ResponseData.null⟩,
          ⟨"job-42", JobStatus.stream, ResponseData.streamPayload 1 [("a", 5)]⟩,
          ⟨"job-42", JobStatus.completed, ResponseData.result [("b", 10)]⟩] [] =
        LoopOutcome.completedR r g' tr := by
  have h := c2_blocking_loop_terminates okFetch idExec sampleGraph
    [⟨"job-42", JobStatus.queued, ResponseData.null⟩,
      ⟨"job-42", JobStatus.running, ResponseData.null⟩,
      ⟨"job-42", JobStatus.stream, ResponseData.streamPayload 1 [("a", 5)]⟩,
      ⟨"job-42", JobStatus.completed, ResponseData.result [("b", 10)]⟩]
    (fun _ _ => rfl) (fun _ => ⟨[("a", 5)], rfl⟩) (by decide)
  exact (h.2
    [⟨"job-42", JobStatus.queued, ResponseData.null⟩,
      ⟨"job-42", JobStatus.running, ResponseData.null⟩,
      ⟨"job-42", JobStatus.stream, ResponseData.streamPayload 1 [("a", 5)]⟩]
    ⟨"job-42", JobStatus.completed, ResponseData.result [("b", 10)]⟩ [] rfl (by decide)).1 rfl

theorem get_response_trace_shape {V : Type} (fetch : String → Except Err (ResultPayload V))
    (exec : Graph V → Nat → Graph V) (reply : HttpReply V) (j : String) :
    ∀ a ∈ (get_response fetch exec reply j).1,
      a = Action.poll j ∨ (∃ i, a = Action.download i) ∨ (∃ s, a = Action.printTB s) ∨
      (∃ d, a = Action.injectDeps d) ∨ (∃ i, a = Action.executeNode i) := by
  intro a ha
  cases reply with
  | fail reason =>
      simp only [get_response, List.mem_singleton] at ha
      exact Or.inl ha
  | ok resp =>
      simp only [get_response, List.mem_cons] at ha
      rcases ha with ha | ha
      · exact Or.inl ha
      · exact Or.inr (handle_response_trace_shape fetch exec resp none a ha)

theorem get_response_poll_mem {V : Type} (fetch : String → Except Err (ResultPayload V))
    (exec : Graph V → Nat → Graph V) (reply : HttpReply V) (j : String) :
    Action.poll j ∈ (get_response fetch exec reply j).1 := by
  cases reply <;> simp [get_response]

theorem non_blocking_poll_cases {V : Type} (fetch : String → Except Err (ResultPayload V))
    (exec : Graph V → Nat → Graph V) (submitReply pollReply : HttpReply V) (j : String) :
    non_blocking_request fetch exec submitReply pollReply (some j) =
      match (get_response fetch exec pollReply j).2 with
      | Except.error e =>
          ((get_response fetch exec pollReply j).1 ++ [Action.saveJobId none],
            Except.error e, none)
      | Except.ok (some r) =>
          ((get_response fetch exec pollReply j).1 ++ [Action.saveJobId none],
            Except.ok (some r), none)
      | Except.ok none =>
          ((get_response fetch exec pollReply j).1, Except.ok none, some j) := rfl

theorem remoteCall_components {V : Type} (fetch : String → Except Err (ResultPayload V))
    (exec : Graph V → Nat → Graph V) (sr pr : HttpReply V) (jid : Option String)
    (g : Graph V) :
    (remoteCall_nonblocking fetch exec sr pr jid g).1 =
      (non_blocking_request fetch exec sr pr jid).1
    ∧ (remoteCall_nonblocking fetch exec sr pr jid g).2.2 =
      (non_blocking_request fetch exec sr pr jid).2.2 := by
  cases hp : (non_blocking_request fetch exec sr pr jid).2.1 with
  | error e => exact ⟨by simp [remoteCall_nonblocking, hp], by simp [remoteCall_nonblocking, hp]⟩
  | ok v =>
      cases v with
      | none =>
          exact ⟨by simp [remoteCall_nonblocking, hp], by simp [remoteCall_nonblocking, hp]⟩
      | some res =>
          cases hinj : ResultModel.inject g res with
          | ok g' =>
              exact ⟨by simp [remoteCall_nonblocking, hp, hinj],
                by simp [remoteCall_nonblocking, hp, hinj]⟩
          | error e =>
              exact ⟨by simp [remoteCall_nonblocking, hp, hinj],
                by simp [remoteCall_nonblocking, hp, hinj]⟩

/-- Claim C5: on every non-blocking poll of a previously persisted job
id, the persisted id afterwards is unchanged exactly when the poll
neither raised nor returned a result; a Completed result or any raised
exception clears the persisted id (a saveJobId-None as the final action
before returning or re-raising), and a poll that observes no result
performs no save at all. -/
theorem c5_poll_clears_persisted_id {V : Type} (fetch : String → Except Err (ResultPayload V))
    (exec : Graph V → Nat → Graph V) (submitReply pollReply : HttpReply V) (j : String) :
    ((non_blocking_request fetch exec submitReply pollReply (some j)).2.2 =
      match (non_blocking_request fetch exec submitReply pollReply (some j)).2.1 with
      | Except.ok none => some j
      | _ => none)
    ∧ (((non_blocking_request fetch exec submitReply pollReply (some j)).2.1 = Except.ok none
        ∧ (non_blocking_request fetch exec submitReply pollReply (some j)).1 =
            (get_response fetch exec pollReply j).1
        ∧ ∀ o, Action.saveJobId o ∉
            (non_blocking_request fetch exec submitReply pollReply (some j)).1)
      ∨ ((non_blocking_request fetch exec submitReply pollReply (some j)).2.1 ≠ Except.ok none
        ∧ (non_blocking_request fetch exec submitReply pollReply (some j)).1 =
            (get_response fetch exec pollReply j).1 ++ [Action.saveJobId none])) := by
  rw [non_blocking_poll_cases]
  cases hp : (get_response fetch exec pollReply j).2 with
  | error e =>
      refine ⟨rfl, Or.inr ⟨?_, rfl⟩⟩
      simp
  | ok v =>
      cases v with
      | none =>
          refine ⟨rfl, Or.inl ⟨rfl, rfl, ?_⟩⟩
          intro o ho
          rcases get_response_trace_shape fetch exec pollReply j _ ho with
            h | ⟨i, h⟩ | ⟨s, h⟩ | ⟨d, h⟩ | ⟨i, h⟩ <;> simp_all
      | some r =>
          refine ⟨rfl, Or.inr ⟨?_, rfl⟩⟩
          simp

/-- Witness for C5: a concrete poll of the persisted id "job-42" whose
handling raises (an Error status handled with no graph) clears the
persisted id. -/
theorem c5_poll_clears_persisted_id_witness :
    (non_blocking_request okFetch idExec (HttpReply.fail "x")
      (HttpReply.ok ⟨"job-42", JobStatus.nnsightError, ResponseData.errorPayload 1 "boom"⟩)
      (some "job-42")).2.2 = none := by
  have h := c5_poll_clears_persisted_id okFetch idExec (HttpReply.fail "x")
    (HttpReply.ok ⟨"job-42", JobStatus.nnsightError, ResponseData.errorPayload 1 "boom"⟩)
    "job-42"
  rw [h.1]
  rfl

/-- Claim C10: a non-blocking call made while a job id is persisted
never serializes or submits the graph: its trace contains a poll of the
persisted id and no serialize/submit action, the trace and the persisted
id afterwards are independent of the graph passed in, and the passed
graph is used solely as the target for injecting a returned result: a
successful injection of the returned payload is the call's result, an
injection failure (a payload naming an unknown node) propagates as the
raised error, and the graph is returned unchanged when the poll yields
none. -/
theorem c10_poll_never_submits {V : Type} (fetch : String → Except Err (ResultPayload V))
    (exec : Graph V → Nat → Graph V) (sr pr : HttpReply V) (j : String) (g g2 : Graph V) :
    (Action.serialize ∉ (remoteCall_nonblocking fetch exec sr pr (some j) g).1
      ∧ Action.submit ∉ (remoteCall_nonblocking fetch exec sr pr (some j) g).1)
    ∧ Action.poll j ∈ (remoteCall_nonblocking fetch exec sr pr (some j) g).1
    ∧ (remoteCall_nonblocking fetch exec sr pr (some j) g).1 =
        (remoteCall_nonblocking fetch exec sr pr (some j) g2).1
    ∧ (remoteCall_nonblocking fetch exec sr pr (some j) g).2.2 =
        (remoteCall_nonblocking fetch exec sr pr (some j) g2).2.2
    ∧ (∀ res g', (non_blocking_request fetch exec sr pr (some j)).2.1 = Except.ok (some res) →
        ResultModel.inject g res = Except.ok g' →
        (remoteCall_nonblocking fetch exec sr pr (some j) g).2.1 = Except.ok g')
    ∧ (∀ res e, (non_blocking_request fetch exec sr pr (some j)).2.1 = Except.ok (some res) →
        ResultModel.inject g res = Except.error e →
        (remoteCall_nonblocking fetch exec sr pr (some j) g).2.1 = Except.error e)
    ∧ ((non_blocking_request fetch exec sr pr (some j)).2.1 = Except.ok none →
        (remoteCall_nonblocking fetch exec sr pr (some j) g).2.1 = Except.ok g) := by
  obtain ⟨h1, h2⟩ := remoteCall_components fetch exec sr pr (some j) g
  obtain ⟨h1b, h2b⟩ := remoteCall_components fetch exec sr pr (some j) g2
  have htr : ∀ a ∈ (non_blocking_request fetch exec sr pr (some j)).1,
      a = Action.saveJobId none ∨ a ∈ (get_response fetch exec pr j).1 := by
    intro a ha
    rw [non_blocking_poll_cases] at ha
    rcases hp : (get_response fetch exec pr j).2 with e | v
    · rw [hp] at ha
      simp only [List.mem_append, List.mem_singleton] at ha
      tauto
    · cases v <;> rw [hp] at ha <;>
        simp only [List.mem_append, List.mem_singleton] at ha <;> tauto
  refine ⟨⟨?_, ?_⟩, ?_, ?_, ?_, ?_, ?_, ?_⟩
  · rw [h1]
    intro hmem
    rcases htr _ hmem with h | h
    · simp at h
    · rcases get_response_trace_shape fetch exec pr j _ h with
        h | ⟨i, h⟩ | ⟨s, h⟩ | ⟨d, h⟩ | ⟨i, h⟩ <;> simp_all
  · rw [h1]
    intro hmem
    rcases htr _ hmem with h | h
    · simp at h
    · rcases get_response_trace_shape fetch exec pr j _ h with
        h | ⟨i, h⟩ | ⟨s, h⟩ | ⟨d, h⟩ | ⟨i, h⟩ <;> simp_all
  · rw [h1, non_blocking_poll_cases]
    rcases hp : (get_response fetch exec pr j).2 with e | v
    · simp [get_response_poll_mem]
    · cases v <;> simp [get_response_poll_mem]
  · rw [h1, h1b]
  · rw [h2, h2b]
  · intro res g' hres hinj
    simp [remoteCall_nonblocking, hres, hinj]
  · intro res e hres hinj
    simp [remoteCall_nonblocking, hres, hinj]
  · intro hres
    simp [remoteCall_nonblocking, hres]

/-- Witness for C10: a concrete poll with persisted id "job-42" whose
reply is a Completed inline result for the known node "a" injects that
result into the sample graph. -/
theorem c10_poll_never_submits_witness :
    (remoteCall_nonblocking okFetch idExec (HttpReply.fail "x")
      (HttpReply.ok ⟨"job-42", JobStatus.completed, ResponseData.result [("a", 7)]⟩)
      (some "job-42") sampleGraph).2.1 =
      Except.ok ⟨[{ sampleNode "a" 0 "tb0" with value := some 7 }, sampleNode "b" 1 "tb1"]⟩ := by
  exact (c10_poll_never_submits okFetch idExec (HttpReply.fail "x")
    (HttpReply.ok ⟨"job-42", JobStatus.completed, ResponseData.result [("a", 7)]⟩)
    "job-42" sampleGraph sampleGraph).2.2.2.2.1 [("a", 7)]
    ⟨[{ sampleNode "a" 0 "tb0" with value := some 7 }, sampleNode "b" 1 "tb1"]⟩ rfl rfl

theorem readChunks_dropped_mem (events : List StreamEvent) (acc : List Nat)
    (h : StreamEvent.dropped ∈ events) :
    readChunks events acc = Except.error Err.connectionDropped := by
  induction events generalizing acc with
  | nil => simp at h
  | cons e rest ih =>
      cases e with
      | chunk d =>
          have : StreamEvent.dropped ∈ rest := by
            rcases List.mem_cons.mp h with h' | h'
            · cases h'
            · exact h'
          simp [readChunks, ih _ this]
      | dropped => rfl

theorem readChunks_ok (events : List StreamEvent) (acc : List Nat)
    (h : StreamEvent.dropped ∉ events) :
    readChunks events acc = Except.ok (acc ++ (events.map chunkData).flatten) := by
  induction events generalizing acc with
  | nil => simp [readChunks]
  | cons e rest ih =>
      cases e with
      | chunk d =>
          have hrest : StreamEvent.dropped ∉ rest := fun hm => h (List.mem_cons_of_mem _ hm)
          simp [readChunks, ih _ hrest, chunkData, List.append_assoc]
      | dropped => exact absurd (List.mem_cons_self _ _) h

/-- Claim C6: `get_result` fails when the transfer-length header is
absent, fails when the connection drops before the declared size has
been received (the streaming iterator raises and nothing catches it),
and otherwise returns a buffer of every received chunk concatenated in
arrival order; a declared length of 0 with an empty stream yields an
empty buffer. -/
theorem c6_get_result_download (s : HttpStreamReply) :
    (s.contentLength = none → get_result s = Except.error (Err.keyError "Content-length"))
    ∧ (s.contentLength.isSome = true → StreamEvent.dropped ∈ s.events →
        get_result s = Except.error Err.connectionDropped)
    ∧ (s.contentLength.isSome = true → StreamEvent.dropped ∉ s.events →
        get_result s = Except.ok (s.events.map chunkData).flatten)
    ∧ (s.contentLength = some 0 → s.events = [] → get_result s = Except.ok []) := by
  rcases s with ⟨cl, events⟩
  refine ⟨?_, ?_, ?_, ?_⟩
  · intro h
    simp only at h
    subst h
    rfl
  · intro hs hd
    rcases cl with _ | total
    · simp at hs
    · simp only [get_result]
      exact readChunks_dropped_mem events [] hd
  · intro hs hd
    rcases cl with _ | total
    · simp at hs
    · simp only [get_result]
      rw [readChunks_ok events [] hd]
      rfl
  · intro h1 h2
    simp only at h1 h2
    subst h1
    subst h2
    rfl

/-- Witness for C6 at the boundary case: declared length 0 and an empty
stream return the empty buffer. -/
theorem c6_get_result_download_witness :
    get_result ⟨some 0, []⟩ = Except.ok [] := by
  exact (c6_get_result_download ⟨some 0, []⟩).2.2.2 rfl rfl

theorem getD_append_lt {α : Type} (l : List α) (x : α) (d : α) (i : Nat)
    (h : i < l.length) :
    (l ++ [x]).getD i d = l.getD i d := by
  induction l generalizing i with
  | nil => simp at h
  | cons a l ih =>
      cases i with
      | zero => rfl
      | succ n =>
          simp only [List.cons_append, List.getD_cons_succ]
          exact ih n (by simpa using h)

theorem getD_append_length {α : Type} (l : List α) (x : α) (d : α) :
    (l ++ [x]).getD l.length d = x := by
  induction l with
  | nil => rfl
  | cons a l ih => simp [List.getD_cons_succ, ih]

theorem set_append_length {α : Type} (l : List α) (x v : α) :
    (l ++ [x]).set l.length v = l ++ [v] := by
  induction l with
  | nil => rfl
  | cons a l ih => simp [List.set, ih]

/-- Claim C8: serializing for submission prunes the LocalContext
coordination nodes from a fresh copy of the graph: the pruned copy is a
distinct object whose nodes are exactly the non-LocalContext nodes of
the original, while the caller's original graph object — its node list,
hence its node set and cached values — is unchanged by preprocessing,
and encoding reads only the pruned copy. -/
theorem c8_preprocess_frame {V : Type} (s : Store V) (ref : Nat)
    (h : ref < s.graphs.length) (encode : Graph V → List Nat) :
    (preprocess s ref).1.getG ref = s.getG ref
    ∧ (preprocess s ref).1.getG (preprocess s ref).2 =
        ⟨(s.getG ref).nodes.filter (fun n => !(n.target == Target.localContext))⟩
    ∧ (preprocess s ref).2 ≠ ref
    ∧ serialize encode (preprocess s ref).1 (preprocess s ref).2 =
        encode (pruneLocal (s.getG ref)) := by
  have hpre : preprocess s ref = (⟨s.graphs ++ [pruneLocal (s.getG ref)]⟩, s.graphs.length) := by
    simp only [preprocess, Store.copyG, Store.setG, Store.getG]
    rw [getD_append_length, set_append_length]
  rw [hpre]
  refine ⟨?_, ?_, ?_, ?_⟩
  · simp only [Store.getG]
    exact getD_append_lt _ _ _ _ h
  · simp only [Store.getG]
    rw [getD_append_length]
    rfl
  · exact fun he => absurd (he ▸ h) (lt_irrefl _)
  · simp only [serialize, Store.getG]
    rw [getD_append_length]

/-- Witness for C8 with a one-graph store holding the sample graph plus
a LocalContext coordination node: the original graph object is unchanged
by preprocessing. -/
theorem c8_preprocess_frame_witness :
    (preprocess
      (⟨[⟨sampleGraph.nodes ++
          [{ name := "lc", index := 2, target := Target.localContext, value := none,
             traceback := "" }]⟩]⟩ : Store Nat) 0).1.getG 0 =
      (⟨[⟨sampleGraph.nodes ++
          [{ name := "lc", index := 2, target := Target.localContext, value := none,
             traceback := "" }]⟩]⟩ : Store Nat).getG 0 := by
  exact (c8_preprocess_frame
    (⟨[⟨sampleGraph.nodes ++
        [{ name := "lc", index := 2, target := Target.localContext, value := none,
           traceback := "" }]⟩]⟩ : Store Nat) 0 (by decide) (fun g => [])).1

end NNsight
